import Mathlib

/-!
Verification development for the Project Thalassa analysis core:
the filename grammar parser (`src/app/services/filename_parser.py`),
the FASTQ record reader and the SRS risk scorer
(`src/app/services/analysis.py`), and the per-file analysis orchestrator.

Strings are modelled as `List Char`.  The Python regular expression
`FILENAME_PATTERN` is embedded as a backtracking matcher with Python
semantics: greedy quantifiers try the longest extension first, the
alternation of extensions is tried left to right, and the final `$`
anchor accepts the end of the string or a position just before a single
trailing newline (CPython behaviour of `$` outside MULTILINE mode).
Python floats are modelled as exact rationals.
-/

/-! ## Character classes of `FILENAME_PATTERN` -/

/-- Class `[A-Za-z0-9\-]` of the `partner_id` group.
`Char.isAlpha`/`Char.isDigit` are the ASCII ranges, matching the
literal character ranges of the pattern. -/
def isPartnerChar (c : Char) : Bool :=
  c.isAlpha || c.isDigit || c == '-'

/-- Class `[A-Za-z0-9\-_]` of the `cage_id` and `sample_id` groups. -/
def isTokenChar (c : Char) : Bool :=
  c.isAlpha || c.isDigit || c == '-' || c == '_'

/-! ## Greedy backtracking matcher -/

/-- First-success combinator: Python regex tries the left branch first. -/
def firstOf {α : Type} (a b : Option α) : Option α :=
  match a with
  | some v => some v
  | none => b

/-- Greedy `cls*` matching with capture, continuation style.
`starCap cls k acc l` consumes a prefix of `l` of characters satisfying
`cls`, longest first, and calls the continuation `k captured rest` at
every stop position in that order, returning the first success.  `acc`
holds the characters consumed so far, in reverse. -/
def starCap {α : Type} (cls : Char → Bool) (k : List Char → List Char → Option α)
    (acc : List Char) : List Char → Option α
  | [] => k acc.reverse []
  | c :: rest =>
    if cls c then
      firstOf (starCap cls k (c :: acc) rest) (k acc.reverse (c :: rest))
    else k acc.reverse (c :: rest)

/-- Greedy `cls+` matching with capture: one mandatory character, then
greedy star. -/
def plusCap {α : Type} (cls : Char → Bool) (k : List Char → List Char → Option α) :
    List Char → Option α
  | [] => none
  | c :: rest => if cls c then starCap cls k [c] rest else none

/-- The fixed-shape date group `\d{4}-\d{2}-\d{2}`: consumes exactly ten
characters or fails.  (`Char.isDigit` is ASCII `0-9`.) -/
def matchDate : List Char → Option (List Char × List Char)
  | y1 :: y2 :: y3 :: y4 :: h1 :: m1 :: m2 :: h2 :: d1 :: d2 :: rest =>
    if y1.isDigit && y2.isDigit && y3.isDigit && y4.isDigit && h1 == '-' &&
        m1.isDigit && m2.isDigit && h2 == '-' && d1.isDigit && d2.isDigit then
      some ([y1, y2, y3, y4, h1, m1, m2, h2, d1, d2], rest)
    else none
  | _ => none

/-- Structural shape of the date group: exactly ten characters
`\d{4}-\d{2}-\d{2}`. -/
def dateShapeB : List Char → Bool
  | [y1, y2, y3, y4, h1, m1, m2, h2, d1, d2] =>
    y1.isDigit && y2.isDigit && y3.isDigit && y4.isDigit && h1 == '-' &&
      m1.isDigit && m2.isDigit && h2 == '-' && d1.isDigit && d2.isDigit
  | _ => false

/-- CPython semantics of the `$` anchor without MULTILINE: it matches at
the end of the string, or just before a newline at the end of the string. -/
def dollarEnd (l : List Char) : Bool :=
  l == [] || l == ['\n']

/-- The four extension alternatives, in the order of the alternation
`fastq|fq|fastq\.gz|fq\.gz`. -/
def extFastq : List Char := ['f', 'a', 's', 't', 'q']

/-- Alternative `fq`. -/
def extFq : List Char := ['f', 'q']

/-- Alternative `fastq.gz`. -/
def extFastqGz : List Char := ['f', 'a', 's', 't', 'q', '.', 'g', 'z']

/-- Alternative `fq.gz`. -/
def extFqGz : List Char := ['f', 'q', '.', 'g', 'z']

/-- The alternation list of the `extension` group. -/
def extAlternatives : List (List Char) := [extFastq, extFq, extFastqGz, extFqGz]

/-- Try one extension alternative at the current position, immediately
followed by the `$` anchor. -/
def extTryAt (e l : List Char) : Bool :=
  (l.take e.length == e) && dollarEnd (l.drop e.length)

/-- The `extension` group followed by `$`: alternatives tried left to
right, as the regex engine does. -/
def matchExtDollar (l : List Char) : Option (List Char) :=
  if extTryAt extFastq l then some extFastq
  else if extTryAt extFq l then some extFq
  else if extTryAt extFastqGz l then some extFastqGz
  else if extTryAt extFqGz l then some extFqGz
  else none

/-- The capture groups of `FILENAME_PATTERN`. -/
structure FilenameGroups where
  partner_id : List Char
  cage_id : List Char
  date : List Char
  sample_id : List Char
  extension : List Char
deriving DecidableEq

/-- Tail of the pattern from the `sample_id` group on:
`(?P<sample_id>[A-Za-z0-9\-_]+)\.(?P<extension>...)$`. -/
def matchSampleExtStage (p c d : List Char) : List Char → Option FilenameGroups :=
  plusCap isTokenChar (fun s r7 =>
    match r7 with
    | ch :: r8 =>
      if ch == '.' then
        match matchExtDollar r8 with
        | some e => some ⟨p, c, d, s, e⟩
        | none => none
      else none
    | [] => none)

/-- Tail of the pattern from the date group on:
`(?P<date>\d{4}-\d{2}-\d{2})_` followed by the sample/extension tail. -/
def matchDateStage (p c : List Char) (r : List Char) : Option FilenameGroups :=
  match matchDate r with
  | some (d, r5) =>
    match r5 with
    | ch :: r6 => if ch == '_' then matchSampleExtStage p c d r6 else none
    | [] => none
  | none => none

/-- Tail of the pattern from the `cage_id` group on:
`(?P<cage_id>[A-Za-z0-9\-_]+)_` followed by the date tail. -/
def matchCageStage (p : List Char) : List Char → Option FilenameGroups :=
  plusCap isTokenChar (fun c r3 =>
    match r3 with
    | ch :: r4 => if ch == '_' then matchDateStage p c r4 else none
    | [] => none)

/-- `FilenameParser.FILENAME_PATTERN.match`: the whole anchored regex
`^(partner)_(cage)_(date)_(sample)\.(ext)$` with Python backtracking
semantics, assembled from the stages above. -/
def matchFilename (l : List Char) : Option FilenameGroups :=
  plusCap isPartnerChar (fun p r1 =>
    match r1 with
    | ch :: r2 => if ch == '_' then matchCageStage p r2 else none
    | [] => none) l

/-! ## Date validation (`datetime.strptime(date, "%Y-%m-%d")`) -/

/-- Numeric value of an ASCII digit character. -/
def digitVal (c : Char) : Nat := c.toNat - '0'.toNat

/-- Year, month and day numbers of a ten-character date group. -/
def dateNums (d : List Char) : Nat × Nat × Nat :=
  match d with
  | [y1, y2, y3, y4, _, m1, m2, _, d1, d2] =>
    (1000 * digitVal y1 + 100 * digitVal y2 + 10 * digitVal y3 + digitVal y4,
      10 * digitVal m1 + digitVal m2, 10 * digitVal d1 + digitVal d2)
  | _ => (0, 0, 0)

/-- Gregorian leap-year rule used by `datetime`. -/
def isLeapYear (y : Nat) : Bool :=
  y % 4 == 0 && (y % 100 != 0 || y % 400 == 0)

/-- Length of a month as `datetime` validates it. -/
def daysInMonth (y m : Nat) : Nat :=
  if m == 2 then (if isLeapYear y then 29 else 28)
  else if m == 4 || m == 6 || m == 9 || m == 11 then 30
  else 31

/-- Acceptance of `datetime.strptime(s, "%Y-%m-%d")` on a string that is
structurally `\d{4}-\d{2}-\d{2}`: the month must be 1..12, the day 1..
days-in-month, and the year within the 1..9999 range of `datetime`. -/
def validCalendarDate (y m d : Nat) : Prop :=
  1 ≤ y ∧ y ≤ 9999 ∧ 1 ≤ m ∧ m ≤ 12 ∧ 1 ≤ d ∧ d ≤ daysInMonth y m

instance validCalendarDate.decidable (y m d : Nat) : Decidable (validCalendarDate y m d) := by
  unfold validCalendarDate
  infer_instance

/-! ## `FilenameParser.parse_filename` -/

/-- The distinct failure cases of `FilenameParseError`, carrying the data
interpolated into the exception message. -/
inductive FilenameParseErr where
  | emptyFilename : FilenameParseErr
  | patternMismatch (filename : List Char) : FilenameParseErr
  | invalidDate (filename dateStr : List Char) : FilenameParseErr
deriving DecidableEq

/-- The metadata dictionary built by a successful `parse_filename`. -/
structure ParsedFilename where
  partner_id : List Char
  cage_id : List Char
  date : List Char
  sample_id : List Char
  extension : List Char
  is_compressed : Bool
  parsed_date : Nat × Nat × Nat
  original_filename : List Char
deriving DecidableEq

/-- `extension.endswith(".gz")`. -/
def endsWithGz (e : List Char) : Bool :=
  List.isSuffixOf ['.', 'g', 'z'] e

/-- `FilenameParser.parse_filename`: empty-name check, anchored regex
match, then strict calendar validation of the date group. -/
def parse_filename (filename : List Char) : Except FilenameParseErr ParsedFilename :=
  if filename == [] then .error .emptyFilename
  else
    match matchFilename filename with
    | none => .error (.patternMismatch filename)
    | some g =>
      let (y, m, d) := dateNums g.date
      if validCalendarDate y m d then
        .ok { partner_id := g.partner_id, cage_id := g.cage_id, date := g.date,
              sample_id := g.sample_id, extension := g.extension,
              is_compressed := endsWithGz g.extension, parsed_date := (y, m, d),
              original_filename := filename }
      else .error (.invalidDate filename g.date)

/-! ## Record reader (`AnalysisService._process_fastq_file`) -/

/-- ASCII whitespace stripped by `str.strip()`. -/
def isPyWhitespaceChar (c : Char) : Bool :=
  c == ' ' || c == '\t' || c == '\n' || c == '\r' ||
  c == Char.ofNat 11 || c == Char.ofNat 12

/-- `str.strip()`: drop leading and trailing whitespace. -/
def pyStrip (l : List Char) : List Char :=
  ((l.dropWhile isPyWhitespaceChar).reverse.dropWhile isPyWhitespaceChar).reverse

/-- Iteration over the lines of an open text file, as `for line in f`
yields them: pieces split at newline characters, the line terminator
dropped (the reader strips each line anyway), with no empty final line
when the text ends in a newline. -/
def pyLines : List Char → List (List Char)
  | [] => []
  | c :: rest =>
    if c == '\n' then [] :: pyLines rest
    else
      match pyLines rest with
      | [] => [[c]]
      | l :: ls => (c :: l) :: ls

/-- The IUPAC nucleotide alphabet of the sequence validation regex
`^[ACGTRYKMSWBDHVN]+$`. -/
def nucleotideAlphabet : List Char :=
  ['A', 'C', 'G', 'T', 'R', 'Y', 'K', 'M', 'S', 'W', 'B', 'D', 'H', 'V', 'N']

/-- Case-insensitive membership in the nucleotide alphabet. -/
def isNucleotideChar (c : Char) : Bool :=
  nucleotideAlphabet.contains c.toUpper

/-- `re.match(r"^[ACGTRYKMSWBDHVN]+$", line, re.IGNORECASE)` on an
already stripped line: nonempty and alphabet-only. -/
def seqLineOk (l : List Char) : Bool :=
  (l != []) && l.all isNucleotideChar

/-- Loop body of `_process_fastq_file`: count every raw line, strip it,
skip blank lines, and keep uppercased alphabet-valid payloads from lines
whose 1-based number is 2 modulo 4.  Rejected candidates are dropped. -/
def processLines : List (List Char) → Nat → List (List Char)
  | [], _ => []
  | l :: ls, lineCount =>
    let cnt := lineCount + 1
    let stripped := pyStrip l
    if stripped == [] then processLines ls cnt
    else if cnt % 4 == 2 && seqLineOk stripped then
      stripped.map Char.toUpper :: processLines ls cnt
    else processLines ls cnt

/-- `_process_fastq_file` on the full text of a (decompressed) file:
`_read_fastq_sequences` opens the file — plain or through gzip — and
hands the line stream to this loop. -/
def readRecords (text : List Char) : List (List Char) :=
  processLines (pyLines text) 0

/-! ## MD5 (`hashlib.md5(seq.encode()).hexdigest()[:8]`)

The diversity factor fingerprints records with a truncated MD5 hex
digest.  The full MD5 algorithm is modelled here over `Nat` with
explicit reduction modulo `2 ^ 32`; no claim depends on particular
digest values, only on the fingerprinting structure. -/

/-- UTF-8 encoding of one character (`str.encode()`). -/
def utf8Encode (c : Char) : List Nat :=
  let n := c.toNat
  if n < 128 then [n]
  else if n < 2048 then [192 + n / 64, 128 + n % 64]
  else if n < 65536 then [224 + n / 4096, 128 + (n / 64) % 64, 128 + n % 64]
  else [240 + n / 262144, 128 + (n / 4096) % 64, 128 + (n / 64) % 64, 128 + n % 64]

/-- Byte sequence of a string (`seq.encode()`). -/
def strBytes (s : List Char) : List Nat :=
  s.foldr (fun c acc => utf8Encode c ++ acc) []

/-- The 64 MD5 round constants `K[i] = floor(abs(sin(i + 1)) * 2 ^ 32)`. -/
def md5K : List Nat := [
  3614090360, 3905402710, 606105819, 3250441966, 4118548399, 1200080426, 2821735955, 4249261313,
  1770035416, 2336552879, 4294925233, 2304563134, 1804603682, 4254626195, 2792965006, 1236535329,
  4129170786, 3225465664, 643717713, 3921069994, 3593408605, 38016083, 3634488961, 3889429448,
  568446438, 3275163606, 4107603335, 1163531501, 2850285829, 4243563512, 1735328473, 2368359562,
  4294588738, 2272392833, 1839030562, 4259657740, 2763975236, 1272893353, 4139469664, 3200236656,
  681279174, 3936430074, 3572445317, 76029189, 3654602809, 3873151461, 530742520, 3299628645,
  4096336452, 1126891415, 2878612391, 4237533241, 1700485571, 2399980690, 4293915773, 2240044497,
  1873313359, 4264355552, 2734768916, 1309151649, 4149444226, 3174756917, 718787259, 3951481745]

/-- The 64 MD5 per-round left-rotation amounts. -/
def md5S : List Nat := [
  7, 12, 17, 22, 7, 12, 17, 22, 7, 12, 17, 22, 7, 12, 17, 22,
  5, 9, 14, 20, 5, 9, 14, 20, 5, 9, 14, 20, 5, 9, 14, 20,
  4, 11, 16, 23, 4, 11, 16, 23, 4, 11, 16, 23, 4, 11, 16, 23,
  6, 10, 15, 21, 6, 10, 15, 21, 6, 10, 15, 21, 6, 10, 15, 21]

/-- All-ones 32-bit mask, used to model bitwise complement. -/
def mask32 : Nat := 4294967295

/-- 32-bit left rotation on `Nat` values below `2 ^ 32`. -/
def rotl32 (x n : Nat) : Nat :=
  (x * 2 ^ n) % 2 ^ 32 + x / 2 ^ (32 - n)

/-- Little-endian byte decomposition, fixed width. -/
def bytesLE : Nat → Nat → List Nat
  | 0, _ => []
  | k + 1, n => n % 256 :: bytesLE k (n / 256)

/-- MD5 padding: a `0x80` byte, zeros to 56 modulo 64, then the bit
length as a 64-bit little-endian quantity. -/
def md5Pad (msg : List Nat) : List Nat :=
  let padZeros := (56 + 64 - (msg.length + 1) % 64) % 64
  msg ++ [128] ++ List.replicate padZeros 0 ++ bytesLE 8 ((8 * msg.length) % 2 ^ 64)

/-- 32-bit little-endian words of a 64-byte block. -/
def wordsLE : List Nat → List Nat
  | b0 :: b1 :: b2 :: b3 :: rest =>
    (b0 + 256 * b1 + 65536 * b2 + 16777216 * b3) :: wordsLE rest
  | _ => []

/-- Split a byte list into 64-byte blocks. -/
def chunk64 : List Nat → List (List Nat)
  | [] => []
  | b :: rest => (b :: rest).take 64 :: chunk64 (rest.drop 63)
termination_by l => l.length
decreasing_by
  simp [List.length_drop]
  omega

/-- The MD5 nonlinear functions F, G, H, I by round index. -/
def md5F (i b c d : Nat) : Nat :=
  if i < 16 then (b &&& c) ||| ((mask32 ^^^ b) &&& d)
  else if i < 32 then (d &&& b) ||| ((mask32 ^^^ d) &&& c)
  else if i < 48 then b ^^^ c ^^^ d
  else c ^^^ (b ||| (mask32 ^^^ d))

/-- The MD5 message-word index by round index. -/
def md5G (i : Nat) : Nat :=
  if i < 16 then i
  else if i < 32 then (5 * i + 1) % 16
  else if i < 48 then (3 * i + 5) % 16
  else (7 * i) % 16

/-- One MD5 round on the running state. -/
def md5Round (M : List Nat) (st : Nat × Nat × Nat × Nat) (i : Nat) :
    Nat × Nat × Nat × Nat :=
  let (a, b, c, d) := st
  let f := (md5F i b c d + a + md5K.getD i 0 + M.getD (md5G i) 0) % 2 ^ 32
  (d, (b + rotl32 f (md5S.getD i 0)) % 2 ^ 32, b, c)

/-- Process one 64-byte block. -/
def md5Block (st : Nat × Nat × Nat × Nat) (block : List Nat) :
    Nat × Nat × Nat × Nat :=
  let M := wordsLE block
  match st, (List.range 64).foldl (md5Round M) st with
  | (a0, b0, c0, d0), (a, b, c, d) =>
    ((a0 + a) % 2 ^ 32, (b0 + b) % 2 ^ 32, (c0 + c) % 2 ^ 32, (d0 + d) % 2 ^ 32)

/-- The 16-byte MD5 digest of a byte sequence. -/
def md5Digest (msg : List Nat) : List Nat :=
  match (chunk64 (md5Pad msg)).foldl md5Block
      (1732584193, 4023233417, 2562383102, 271733878) with
  | (a, b, c, d) => bytesLE 4 a ++ bytesLE 4 b ++ bytesLE 4 c ++ bytesLE 4 d

/-- Lowercase hex digit. -/
def hexDigitChar (n : Nat) : Char :=
  if n < 10 then Char.ofNat (48 + n) else Char.ofNat (87 + n)

/-- Two hex characters of one byte. -/
def byteHex (b : Nat) : List Char := [hexDigitChar (b / 16), hexDigitChar (b % 16)]

/-- `hashlib.md5(seq.encode()).hexdigest()[:8]`: the first eight hex
characters, i.e. the first four digest bytes in hex. -/
def md5hex8 (s : List Char) : List Char :=
  ((md5Digest (strBytes s)).take 4).foldr (fun b acc => byteHex b ++ acc) []

/-! ## Risk scorer (`AnalysisService._analyze_srs_patterns` and factors) -/

/-- `_calculate_sequence_diversity`: distinct truncated-MD5 fingerprints
over the first 1000 records, inverted into a repetitiveness score. -/
def _calculate_sequence_diversity (sequences : List (List Char)) : ℚ :=
  if sequences.length < 2 then 0
  else
    let uniqueHashes := ((sequences.take 1000).map md5hex8).dedup
    let diversityRatio : ℚ :=
      (uniqueHashes.length : ℚ) / ((min sequences.length 1000 : Nat) : ℚ)
    max 0 (1 - diversityRatio)

/-- `_calculate_gc_content_risk`: average G+C fraction of the first 500
records; only extreme averages (below 0.3 or above 0.7) score. -/
def _calculate_gc_content_risk (sequences : List (List Char)) : ℚ :=
  let gcContents := (sequences.take 500).map (fun s =>
    if 0 < s.length then ((s.count 'G' + s.count 'C' : Nat) : ℚ) / (s.length : ℚ)
    else 0)
  if gcContents = [] then 0
  else
    let avgGc := gcContents.sum / (gcContents.length : ℚ)
    if avgGc < 3 / 10 ∨ 7 / 10 < avgGc then min 1 (|avgGc - 1 / 2| * 2) else 0

/-- Uppercase comparison of a window with a fixed anchor
(`re.IGNORECASE`). -/
def upperEq (l pat : List Char) : Bool :=
  l.map Char.toUpper == pat

/-- `.` in a Python regex matches any character except a newline. -/
def gapOk (g : List Char) : Bool :=
  g.all (fun c => c != '\n')

/-- Gap-length check for a motif pattern: the gap characters are
newline-free and the second six-character anchor follows. -/
def motifGapCheck (a2 rest : List Char) (g : Nat) : Bool :=
  gapOk (rest.take g) && upperEq ((rest.drop g).take 6) a2

/-- Greedy counted gap `.{lo,hi}`: try the longest gap first, counting
down, as the backtracking engine does. -/
def tryGapDown (check : Nat → Bool) (lo : Nat) : Nat → Option Nat
  | 0 => if lo == 0 && check 0 then some 0 else none
  | g + 1 =>
    if g + 1 < lo then none
    else if check (g + 1) then some (g + 1)
    else tryGapDown check lo g

/-- Match one motif `anchor1 .{lo,hi} anchor2` at the head of `l`,
returning the chosen gap length. -/
def motifGapLen (a1 a2 : List Char) (lo hi : Nat) (l : List Char) : Option Nat :=
  if upperEq (l.take 6) a1 then
    tryGapDown (motifGapCheck a2 (l.drop 6)) lo hi
  else none

/-- `re.findall` count for one motif pattern: scan left to right, and
resume after the end of each non-overlapping match. -/
def countMotifMatches (a1 a2 : List Char) (lo hi : Nat) : List Char → Nat
  | [] => 0
  | c :: rest =>
    match motifGapLen a1 a2 lo hi (c :: rest) with
    | some g => 1 + countMotifMatches a1 a2 lo hi (rest.drop (11 + g))
    | none => countMotifMatches a1 a2 lo hi rest
termination_by l => l.length
decreasing_by
  all_goals simp [List.length_drop]
  omega

/-- Anchors of `ATGCGT.{10,20}CGTATG`. -/
def motifAnchorA1 : List Char := ['A', 'T', 'G', 'C', 'G', 'T']

/-- Second anchor of the first pattern. -/
def motifAnchorA2 : List Char := ['C', 'G', 'T', 'A', 'T', 'G']

/-- Anchors of `GGCTAG.{5,15}CTAGGC`. -/
def motifAnchorB1 : List Char := ['G', 'G', 'C', 'T', 'A', 'G']

/-- Second anchor of the second pattern. -/
def motifAnchorB2 : List Char := ['C', 'T', 'A', 'G', 'G', 'C']

/-- Anchors of `TTTAAA.{8,12}AAATTT`. -/
def motifAnchorC1 : List Char := ['T', 'T', 'T', 'A', 'A', 'A']

/-- Second anchor of the third pattern. -/
def motifAnchorC2 : List Char := ['A', 'A', 'A', 'T', 'T', 'T']

/-- Total motif matches of the three fixed patterns in one record. -/
def motifMatchesInSeq (s : List Char) : Nat :=
  countMotifMatches motifAnchorA1 motifAnchorA2 10 20 s +
  countMotifMatches motifAnchorB1 motifAnchorB2 5 15 s +
  countMotifMatches motifAnchorC1 motifAnchorC2 8 12 s

/-- `_detect_pathogen_motifs`: motif density over the first 200 records,
scaled by 10 and capped at 1. -/
def _detect_pathogen_motifs (sequences : List (List Char)) : ℚ :=
  let totalChecked := min sequences.length 200
  let totalMatches := ((sequences.take totalChecked).map motifMatchesInSeq).sum
  if totalChecked == 0 then 0
  else min 1 ((totalMatches : ℚ) / (totalChecked : ℚ) * 10)

/-- `_calculate_quality_indicators`: average N fraction of the first 100
records, scaled by 5 and capped at 1. -/
def _calculate_quality_indicators (sequences : List (List Char)) : ℚ :=
  if sequences == [] then 0
  else
    let nScores := (sequences.take 100).map (fun s =>
      if 0 < s.length then ((s.count 'N' : Nat) : ℚ) / (s.length : ℚ) else 0)
    let avgN := if nScores = [] then 0 else nScores.sum / (nScores.length : ℚ)
    min 1 (avgN * 5)

/-- `_analyze_srs_patterns`: weighted combination of the four factors,
clamped to the unit interval; Python float literals are modelled by the
exact rationals they denote in the source text. -/
def _analyze_srs_patterns (sequences : List (List Char)) : ℚ :=
  if sequences == [] then 0
  else
    let diversityScore := _calculate_sequence_diversity sequences
    let gcScore := _calculate_gc_content_risk sequences
    let motifScore := _detect_pathogen_motifs sequences
    let qualityScore := _calculate_quality_indicators sequences
    let riskScore :=
      3 / 10 * diversityScore + 1 / 4 * gcScore + 7 / 20 * motifScore +
        1 / 10 * qualityScore
    max 0 (min 1 riskScore)

/-! ## Risk categorization and orchestrator -/

/-- `AnalysisService._categorize_risk_level`. -/
def _categorize_risk_level (risk_score : ℚ) : String :=
  if 8 / 10 ≤ risk_score then "critical"
  else if 6 / 10 ≤ risk_score then "high"
  else if 4 / 10 ≤ risk_score then "medium"
  else "low"

/-- The message of the OSError that `calculate_srs_risk_score` wraps
around any exception raised while reading or scoring. -/
def srsErrorMessage (filename e : List Char) : List Char :=
  ("Error during SRS risk analysis for ".data) ++ filename ++ (": ".data) ++ e

/-- `AnalysisService.calculate_srs_risk_score` for an existing file.
The file read is modelled by its outcome: either the record list that
`_read_fastq_sequences` produced, or the error it raised; any error is
re-raised wrapped in an OSError message, and an empty record list
short-circuits to score 0.0. -/
def calculate_srs_risk_score (filename : List Char)
    (readResult : Except (List Char) (List (List Char))) : Except (List Char) ℚ :=
  match readResult with
  | .error e => .error (srsErrorMessage filename e)
  | .ok seqs => if seqs == [] then .ok 0 else .ok (_analyze_srs_patterns seqs)

/-- The analysis-result dictionary assembled by `get_file_info` and
`analyze_file`: file metadata, parsed identifier fields (or the parse
failure), and the risk result fields added by `analyze_file`. -/
structure FileAnalysisRecord where
  filename : List Char
  size_bytes : Nat
  is_compressed : Bool
  partner_id : Option (List Char)
  cage_id : Option (List Char)
  sample_date : Option (List Char)
  sample_id : Option (List Char)
  parsed_date : Option (Nat × Nat × Nat)
  filename_valid : Bool
  parse_error : Option FilenameParseErr
  srs_risk_score : Option ℚ
  risk_level : Option String
  risk_analysis_timestamp : Option (List Char)
  risk_analysis_error : Option (List Char)
deriving DecidableEq

/-- `AnalysisService.get_file_info` for an existing file whose stat
succeeded (the not-found and OS-error paths raise and are outside this
record-building path): base metadata plus either the parsed identifier
fields or nulled fields with the parse error. -/
def get_file_info (filename : List Char) (size_bytes : Nat) : FileAnalysisRecord :=
  let base : FileAnalysisRecord :=
    { filename := filename, size_bytes := size_bytes,
      is_compressed := List.isSuffixOf ['.', 'g', 'z'] (filename.map Char.toLower),
      partner_id := none, cage_id := none, sample_date := none, sample_id := none,
      parsed_date := none, filename_valid := false, parse_error := none,
      srs_risk_score := none, risk_level := none,
      risk_analysis_timestamp := none, risk_analysis_error := none }
  match parse_filename filename with
  | .ok md =>
    { base with
      partner_id := some md.partner_id, cage_id := some md.cage_id,
      sample_date := some md.date, sample_id := some md.sample_id,
      parsed_date := some md.parsed_date, filename_valid := true }
  | .error e =>
    { base with
      parse_error := some e }

/-- `AnalysisService.analyze_file` for an existing file: metadata and
filename parse first, then risk scoring; a scoring exception is caught
and downgraded to a complete `analysis_failed` record, never re-raised.
`timestamp` models `datetime.now().isoformat()`. -/
def analyze_file (filename : List Char) (size_bytes : Nat)
    (readResult : Except (List Char) (List (List Char)))
    (timestamp : List Char) : FileAnalysisRecord :=
  let file_info := get_file_info filename size_bytes
  match calculate_srs_risk_score filename readResult with
  | .ok risk_score =>
    { file_info with
      srs_risk_score := some risk_score,
      risk_analysis_timestamp := some timestamp,
      risk_level := some (_categorize_risk_level risk_score) }
  | .error e =>
    { file_info with
      srs_risk_score := none,
      risk_analysis_timestamp := some timestamp,
      risk_level := some "analysis_failed",
      risk_analysis_error := some e }

/-- Decidable equality for `Except`, used to evaluate parser results on
concrete inputs. -/
instance exceptDecEq {e a : Type} [DecidableEq e] [DecidableEq a] :
    DecidableEq (Except e a) := fun x y =>
  match x, y with
  | .ok v, .ok w =>
    if h : v = w then isTrue (by rw [h]) else isFalse (fun hh => h (Except.ok.inj hh))
  | .error v, .error w =>
    if h : v = w then isTrue (by rw [h]) else isFalse (fun hh => h (Except.error.inj hh))
  | .ok _, .error _ => isFalse (fun hh => Except.noConfusion hh)
  | .error _, .ok _ => isFalse (fun hh => Except.noConfusion hh)

/-- The record-reader acceptance rule as the specification states it: a
stripped, nonempty line is kept, uppercased, exactly when its 1-based
raw line number is 2 modulo 4 and it passes the alphabet check.  Stated
from the spec text for comparison with `readRecords`. -/
def readRecordsSpec (text : List Char) : List (List Char) :=
  ((pyLines text).enumFrom 1).filterMap (fun p =>
    let stripped := pyStrip p.2
    if stripped ≠ [] ∧ p.1 % 4 = 2 ∧ seqLineOk stripped then
      some (stripped.map Char.toUpper)
    else none)

/-! ## Helper lemmas about the backtracking matcher -/


theorem starCap_full {α : Type} (cls : Char → Bool) (k : List Char → List Char → Option α)
    (run : List Char) (v : α) :
    ∀ (acc rest : List Char),
      (∀ ch ∈ run, cls ch = true) →
      (rest = [] ∨ ∃ c cs, rest = c :: cs ∧ cls c = false) →
      k (acc.reverse ++ run) rest = some v →
      starCap cls k acc (run ++ rest) = some v := by
  induction run with
  | nil =>
    intro acc rest _ hstop hk
    rcases hstop with rfl | ⟨c, cs, rfl, hc⟩
    · simpa [starCap] using hk
    · simpa [starCap, hc] using hk
  | cons a run ih =>
    intro acc rest hrun hstop hk
    have ha : cls a = true := hrun a (by simp)
    have : starCap cls k (a :: acc) (run ++ rest) = some v := by
      apply ih (a :: acc) rest (fun ch hch => hrun ch (by simp [hch])) hstop
      simpa [List.append_assoc] using hk
    simp [starCap, ha, this, firstOf]

theorem starCap_deep {α : Type} (cls : Char → Bool) (k : List Char → List Char → Option α)
    (run : List Char) (v : α) :
    ∀ (acc rest : List Char),
      (∀ ch ∈ run, cls ch = true) →
      starCap cls k (run.reverse ++ acc) rest = some v →
      starCap cls k acc (run ++ rest) = some v := by
  induction run with
  | nil => intro acc rest _ hdeep; simpa using hdeep
  | cons a run ih =>
    intro acc rest hrun hdeep
    have ha : cls a = true := hrun a (by simp)
    have : starCap cls k (a :: acc) (run ++ rest) = some v := by
      apply ih (a :: acc) rest (fun ch hch => hrun ch (by simp [hch]))
      simpa [List.append_assoc] using hdeep
    simp [starCap, ha, this, firstOf]

theorem starCap_none {α : Type} (cls : Char → Bool) (k : List Char → List Char → Option α) :
    ∀ (l acc : List Char),
      (∀ u w, u ++ w = l → (∀ ch ∈ u, cls ch = true) → k (acc.reverse ++ u) w = none) →
      starCap cls k acc l = none := by
  intro l
  induction l with
  | nil =>
    intro acc hfail
    simpa [starCap] using hfail [] [] rfl (by simp)
  | cons c rest ih =>
    intro acc hfail
    by_cases hc : cls c = true
    · have h1 : starCap cls k (c :: acc) rest = none := by
        apply ih (c :: acc)
        intro u w huw hu
        have := hfail (c :: u) w (by simp [huw]) (by
          intro ch hch
          rcases List.mem_cons.mp hch with rfl | hm
          · exact hc
          · exact hu ch hm)
        simpa [List.append_assoc] using this
      have h2 := hfail [] (c :: rest) rfl (by simp)
      simp at h2
      simp [starCap, hc, h1, firstOf, h2]
    · have h2 := hfail [] (c :: rest) rfl (by simp)
      simp at h2
      simp [starCap, hc, firstOf, h2]

theorem starCap_sound {α : Type} (cls : Char → Bool) (k : List Char → List Char → Option α)
    (v : α) :
    ∀ (l acc : List Char), starCap cls k acc l = some v →
      ∃ u w, l = u ++ w ∧ (∀ ch ∈ u, cls ch = true) ∧ k (acc.reverse ++ u) w = some v := by
  intro l
  induction l with
  | nil =>
    intro acc h
    exact ⟨[], [], by simp, by simp, by simpa [starCap] using h⟩
  | cons c rest ih =>
    intro acc h
    by_cases hc : cls c = true
    · simp only [starCap, hc, if_true] at h
      rcases hfo : starCap cls k (c :: acc) rest with _ | w0
      · rw [hfo] at h
        simp [firstOf] at h
        exact ⟨[], c :: rest, by simp, by simp, by simpa using h⟩
      · rw [hfo] at h
        simp [firstOf] at h
        subst h
        obtain ⟨u, w, rfl, hu, hk⟩ := ih (c :: acc) hfo
        exact ⟨c :: u, w, by simp, by
          intro ch hch
          rcases List.mem_cons.mp hch with rfl | hm
          · exact hc
          · exact hu ch hm, by simpa [List.append_assoc] using hk⟩
    · simp only [starCap, hc] at h
      simp at hc
      exact ⟨[], c :: rest, by simp, by simp, by simpa [hc] using h⟩

theorem plusCap_sound {α : Type} (cls : Char → Bool) (k : List Char → List Char → Option α)
    (l : List Char) (v : α) (h : plusCap cls k l = some v) :
    ∃ u w, l = u ++ w ∧ u ≠ [] ∧ (∀ ch ∈ u, cls ch = true) ∧ k u w = some v := by
  match l with
  | [] => simp [plusCap] at h
  | c :: rest =>
    by_cases hc : cls c = true
    · simp only [plusCap, hc, if_true] at h
      obtain ⟨u, w, rfl, hu, hk⟩ := starCap_sound cls k v rest [c] h
      refine ⟨c :: u, w, by simp, by simp, ?_, by simpa using hk⟩
      intro ch hch
      rcases List.mem_cons.mp hch with rfl | hm
      · exact hc
      · exact hu ch hm
    · simp [plusCap, hc] at h

theorem matchDate_append (d rest : List Char) (hd : dateShapeB d = true) :
    matchDate (d ++ rest) = some (d, rest) := by
  unfold dateShapeB at hd
  split at hd
  · next y1 y2 y3 y4 g1 m1 m2 g2 d1 d2 =>
    simp only [List.cons_append, List.nil_append, matchDate, hd, if_true]
  · simp at hd

theorem matchDate_sound (l dd rr : List Char) (h : matchDate l = some (dd, rr)) :
    l = dd ++ rr ∧ dateShapeB dd = true := by
  unfold matchDate at h
  split at h
  · next y1 y2 y3 y4 g1 m1 m2 g2 d1 d2 rest =>
    split_ifs at h with hcond
    · simp only [Option.some.injEq, Prod.mk.injEq] at h
      obtain ⟨rfl, rfl⟩ := h
      exact ⟨by simp, by simpa [dateShapeB] using hcond⟩
  · simp at h

theorem underscore_split_unique {u w d s2 : List Char}
    (h : u ++ '_' :: w = d ++ '_' :: s2) (hd : ('_' : Char) ∉ d) (hs : ('_' : Char) ∉ s2) :
    u = d ∧ w = s2 := by
  induction u generalizing d with
  | nil =>
    match d with
    | [] => simpa using h
    | x :: d2 =>
      simp at h
      exact absurd (h.1 ▸ List.mem_cons_self x d2) (by simpa [← h.1] using hd)
  | cons a u2 ih =>
    match d with
    | [] =>
      simp at h
      exact absurd (h.2 ▸ List.mem_append_right u2 (List.mem_cons_self '_' w)) hs
    | x :: d2 =>
      simp at h
      obtain ⟨rfl, h2⟩ := h
      obtain ⟨rfl, rfl⟩ := ih h2 (fun hm => hd (List.mem_cons_of_mem _ hm))
      exact ⟨rfl, rfl⟩

theorem matchExtDollar_exact (e z : List Char) (he : e ∈ extAlternatives)
    (hz : z = [] ∨ z = ['\n']) : matchExtDollar (e ++ z) = some e := by
  simp only [extAlternatives, List.mem_cons, List.not_mem_nil, or_false] at he
  rcases hz with rfl | rfl <;> rcases he with rfl | rfl | rfl | rfl <;> decide

theorem extTryAt_split (e l : List Char) (h : extTryAt e l = true) :
    ∃ z, l = e ++ z ∧ (z = [] ∨ z = ['\n']) := by
  unfold extTryAt at h
  simp only [Bool.and_eq_true] at h
  obtain ⟨ht, hdol⟩ := h
  have ht2 : l.take e.length = e := by simpa using ht
  refine ⟨l.drop e.length, ?_, ?_⟩
  · conv_lhs => rw [← List.take_append_drop e.length l]
    rw [ht2]
  · unfold dollarEnd at hdol
    simp only [Bool.or_eq_true] at hdol
    rcases hdol with hx | hx
    · exact Or.inl (by simpa using hx)
    · exact Or.inr (by simpa using hx)

theorem matchExtDollar_sound (l e : List Char) (h : matchExtDollar l = some e) :
    e ∈ extAlternatives ∧ ∃ z, l = e ++ z ∧ (z = [] ∨ z = ['\n']) := by
  unfold matchExtDollar at h
  split_ifs at h with h1 h2 h3 h4
  · simp only [Option.some.injEq] at h
    subst h
    exact ⟨by simp [extAlternatives], extTryAt_split _ _ h1⟩
  · simp only [Option.some.injEq] at h
    subst h
    exact ⟨by simp [extAlternatives], extTryAt_split _ _ h2⟩
  · simp only [Option.some.injEq] at h
    subst h
    exact ⟨by simp [extAlternatives], extTryAt_split _ _ h3⟩
  · simp only [Option.some.injEq] at h
    subst h
    exact ⟨by simp [extAlternatives], extTryAt_split _ _ h4⟩

theorem dateShapeB_no_underscore (d : List Char) (hd : dateShapeB d = true) :
    ('_' : Char) ∉ d := by
  unfold dateShapeB at hd
  split at hd
  · next y1 y2 y3 y4 g1 m1 m2 g2 d1 d2 =>
    simp only [Bool.and_eq_true] at hd
    intro hmem
    simp only [List.mem_cons, List.not_mem_nil, or_false] at hmem
    rcases hmem with rfl | rfl | rfl | rfl | rfl | rfl | rfl | rfl | rfl | rfl <;>
      simp [Char.isDigit] at hd
  · simp at hd

theorem extAlternatives_no_underscore (e : List Char) (he : e ∈ extAlternatives) :
    ('_' : Char) ∉ e := by
  simp only [extAlternatives, List.mem_cons, List.not_mem_nil, or_false] at he
  rcases he with rfl | rfl | rfl | rfl <;> decide

theorem matchDateStage_none (p c s2 : List Char) (hs2 : ('_' : Char) ∉ s2) :
    matchDateStage p c s2 = none := by
  unfold matchDateStage
  rcases hmd : matchDate s2 with _ | ⟨dd, rr⟩
  · rfl
  · obtain ⟨heq, _⟩ := matchDate_sound s2 dd rr hmd
    match rr with
    | [] => rfl
    | ch :: r6 =>
      have hch : (ch == '_') = false := by
        simp only [beq_eq_false_iff_ne, ne_eq]
        rintro rfl
        exact hs2 (heq ▸ List.mem_append_right dd (List.mem_cons_self _ _))
      simp [hch]

theorem matchSampleExtStage_canonical (p c d s e z : List Char)
    (hs : s ≠ []) (hsc : ∀ ch ∈ s, isTokenChar ch = true)
    (he : e ∈ extAlternatives) (hz : z = [] ∨ z = ['\n']) :
    matchSampleExtStage p c d (s ++ '.' :: (e ++ z)) = some ⟨p, c, d, s, e⟩ := by
  match s with
  | [] => exact absurd rfl hs
  | s1 :: srest =>
    unfold matchSampleExtStage
    simp only [List.cons_append, plusCap, hsc s1 (by simp), if_true]
    apply starCap_full _ _ srest _ [s1] ('.' :: (e ++ z))
      (fun ch hch => hsc ch (by simp [hch]))
      (Or.inr ⟨'.', e ++ z, rfl, by decide⟩)
    simp only [List.reverse_cons, List.reverse_nil, List.nil_append, List.singleton_append]
    simp [matchExtDollar_exact e z he hz]

theorem matchCageStage_canonical (p c d s e z : List Char)
    (hc : c ≠ []) (hcc : ∀ ch ∈ c, isTokenChar ch = true)
    (hd : dateShapeB d = true)
    (hs : s ≠ []) (hsc : ∀ ch ∈ s, isTokenChar ch = true) (hsu : ('_' : Char) ∉ s)
    (he : e ∈ extAlternatives) (hz : z = [] ∨ z = ['\n']) :
    matchCageStage p (c ++ '_' :: (d ++ '_' :: (s ++ '.' :: (e ++ z)))) =
      some ⟨p, c, d, s, e⟩ := by
  have hs2 : ('_' : Char) ∉ s ++ '.' :: (e ++ z) := by
    intro hmem
    rcases List.mem_append.mp hmem with hm | hm
    · exact hsu hm
    · rcases List.mem_cons.mp hm with hm2 | hm2
      · exact absurd hm2 (by decide)
      · rcases List.mem_append.mp hm2 with hm3 | hm3
        · exact extAlternatives_no_underscore e he hm3
        · rcases hz with rfl | rfl
          · simp at hm3
          · simp at hm3
  match c with
  | [] => exact absurd rfl hc
  | c1 :: crest =>
    unfold matchCageStage
    simp only [List.cons_append, plusCap, hcc c1 (by simp), if_true]
    apply starCap_deep _ _ crest _ [c1] ('_' :: (d ++ '_' :: (s ++ '.' :: (e ++ z))))
      (fun ch hch => hcc ch (by simp [hch]))
    rw [starCap]
    have hnone : starCap isTokenChar
        (fun c r3 =>
          match r3 with
          | ch :: r4 => if ch == '_' then matchDateStage p c r4 else none
          | [] => none)
        ('_' :: (crest.reverse ++ [c1])) (d ++ '_' :: (s ++ '.' :: (e ++ z))) = none := by
      apply starCap_none
      intro u w huw hu
      match w with
      | [] => rfl
      | wc :: w2 =>
        by_cases hwc : wc = '_'
        · subst hwc
          obtain ⟨rfl, rfl⟩ := underscore_split_unique huw
            (dateShapeB_no_underscore d hd) hs2
          have hn : ∀ cc, matchDateStage p cc (s ++ '.' :: (e ++ z)) = none :=
            fun cc => matchDateStage_none p cc _ hs2
          simp [hn]
        · simp [hwc]
    rw [if_pos (by decide : isTokenChar '_' = true)]
    rw [hnone]
    have htail : matchDateStage p (c1 :: crest) (d ++ '_' :: (s ++ '.' :: (e ++ z))) =
        some ⟨p, c1 :: crest, d, s, e⟩ := by
      unfold matchDateStage
      rw [matchDate_append d ('_' :: (s ++ '.' :: (e ++ z))) hd]
      simp [matchSampleExtStage_canonical p (c1 :: crest) d s e z hs hsc he hz]
    simp only [firstOf]
    simp [htail]

theorem matchFilename_canonical (p c d s e z : List Char)
    (hp : p ≠ []) (hpc : ∀ ch ∈ p, isPartnerChar ch = true)
    (hc : c ≠ []) (hcc : ∀ ch ∈ c, isTokenChar ch = true)
    (hd : dateShapeB d = true)
    (hs : s ≠ []) (hsc : ∀ ch ∈ s, isTokenChar ch = true) (hsu : ('_' : Char) ∉ s)
    (he : e ∈ extAlternatives) (hz : z = [] ∨ z = ['\n']) :
    matchFilename (p ++ '_' :: (c ++ '_' :: (d ++ '_' :: (s ++ '.' :: (e ++ z))))) =
      some ⟨p, c, d, s, e⟩ := by
  match p with
  | [] => exact absurd rfl hp
  | p1 :: prest =>
    unfold matchFilename
    simp only [List.cons_append, plusCap, hpc p1 (by simp), if_true]
    apply starCap_full _ _ prest _ [p1]
      ('_' :: (c ++ '_' :: (d ++ '_' :: (s ++ '.' :: (e ++ z)))))
      (fun ch hch => hpc ch (by simp [hch]))
      (Or.inr ⟨'_', _, rfl, by decide⟩)
    simp [matchCageStage_canonical (p1 :: prest) c d s e z hc hcc hd hs hsc hsu he hz]

theorem matchFilename_sound (l : List Char) (g : FilenameGroups)
    (h : matchFilename l = some g) :
    ∃ z, l = g.partner_id ++ '_' :: (g.cage_id ++ '_' :: (g.date ++ '_' ::
        (g.sample_id ++ '.' :: (g.extension ++ z)))) ∧ (z = [] ∨ z = ['\n']) ∧
      g.partner_id ≠ [] ∧ (∀ ch ∈ g.partner_id, isPartnerChar ch = true) ∧
      g.cage_id ≠ [] ∧ (∀ ch ∈ g.cage_id, isTokenChar ch = true) ∧
      dateShapeB g.date = true ∧
      g.sample_id ≠ [] ∧ (∀ ch ∈ g.sample_id, isTokenChar ch = true) ∧
      g.extension ∈ extAlternatives := by
  unfold matchFilename at h
  obtain ⟨p, w1, rfl, hpne, hpc, hk1⟩ := plusCap_sound _ _ _ _ h
  rcases w1 with _ | ⟨ch, r2⟩
  · simp at hk1
  by_cases hch : ch = '_'
  case neg => simp [hch] at hk1
  subst hch
  simp only [beq_self_eq_true, if_true] at hk1
  unfold matchCageStage at hk1
  obtain ⟨c, w2, rfl, hcne, hcc, hk2⟩ := plusCap_sound _ _ _ _ hk1
  rcases w2 with _ | ⟨ch2, r4⟩
  · simp at hk2
  by_cases hch2 : ch2 = '_'
  case neg => simp [hch2] at hk2
  subst hch2
  simp only [beq_self_eq_true, if_true] at hk2
  unfold matchDateStage at hk2
  rcases hmd : matchDate r4 with _ | ⟨dd, rr⟩
  · rw [hmd] at hk2
    simp at hk2
  rw [hmd] at hk2
  obtain ⟨hr4, hdd⟩ := matchDate_sound _ _ _ hmd
  rcases rr with _ | ⟨ch3, r6⟩
  · simp at hk2
  by_cases hch3 : ch3 = '_'
  case neg => simp [hch3] at hk2
  subst hch3
  simp only [beq_self_eq_true, if_true] at hk2
  unfold matchSampleExtStage at hk2
  obtain ⟨s, w3, rfl, hsne, hsc, hk3⟩ := plusCap_sound _ _ _ _ hk2
  rcases w3 with _ | ⟨ch4, r8⟩
  · simp at hk3
  by_cases hch4 : ch4 = '.'
  case neg => simp [hch4] at hk3
  subst hch4
  simp only [beq_self_eq_true, if_true] at hk3
  rcases hme : matchExtDollar r8 with _ | e
  · rw [hme] at hk3
    simp at hk3
  rw [hme] at hk3
  simp only [Option.some.injEq] at hk3
  obtain ⟨hein, z, rfl, hzor⟩ := matchExtDollar_sound _ _ hme
  subst hk3
  subst hr4
  refine ⟨z, ?_, hzor, hpne, hpc, hcne, hcc, hdd, hsne, hsc, hein⟩
  simp [List.append_assoc]

theorem parse_ok_groups (l : List Char) (r : ParsedFilename)
    (h : parse_filename l = .ok r) :
    matchFilename l = some ⟨r.partner_id, r.cage_id, r.date, r.sample_id, r.extension⟩ := by
  unfold parse_filename at h
  by_cases hemp : (l == []) = true
  · rw [if_pos hemp] at h
    simp at h
  rw [if_neg hemp] at h
  split at h
  · simp at h
  · next g heq =>
    split at h
    · next y m dd hdn =>
      split_ifs at h with hv
      · simp only [Except.ok.injEq] at h
        subst h
        exact heq

theorem parse_ok_decomposition (l : List Char) (r : ParsedFilename)
    (h : parse_filename l = .ok r) :
    ∃ z, l = r.partner_id ++ '_' :: (r.cage_id ++ '_' :: (r.date ++ '_' ::
        (r.sample_id ++ '.' :: (r.extension ++ z)))) ∧ (z = [] ∨ z = ['\n']) ∧
      r.partner_id ≠ [] ∧ (∀ ch ∈ r.partner_id, isPartnerChar ch = true) ∧
      r.cage_id ≠ [] ∧ (∀ ch ∈ r.cage_id, isTokenChar ch = true) ∧
      dateShapeB r.date = true ∧
      r.sample_id ≠ [] ∧ (∀ ch ∈ r.sample_id, isTokenChar ch = true) ∧
      r.extension ∈ extAlternatives := by
  simpa using matchFilename_sound l _ (parse_ok_groups l r h)

theorem parse_ok_underscore_count (l : List Char) (r : ParsedFilename)
    (h : parse_filename l = .ok r) : 3 ≤ l.count '_' := by
  obtain ⟨z, rfl, -⟩ := parse_ok_decomposition l r h
  simp [List.count_append, List.count_cons]
  omega

theorem parse_filename_roundtrip (p c d s e : List Char)
    (hp : p ≠ []) (hpc : ∀ ch ∈ p, isPartnerChar ch = true)
    (hc : c ≠ []) (hcc : ∀ ch ∈ c, isTokenChar ch = true)
    (hd : dateShapeB d = true)
    (hv : validCalendarDate (dateNums d).1 (dateNums d).2.1 (dateNums d).2.2)
    (hs : s ≠ []) (hsc : ∀ ch ∈ s, isTokenChar ch = true) (hsu : ('_' : Char) ∉ s)
    (he : e ∈ extAlternatives) :
    parse_filename (p ++ '_' :: (c ++ '_' :: (d ++ '_' :: (s ++ '.' :: e)))) =
      .ok { partner_id := p, cage_id := c, date := d, sample_id := s, extension := e,
            is_compressed := endsWithGz e, parsed_date := dateNums d,
            original_filename := p ++ '_' :: (c ++ '_' :: (d ++ '_' :: (s ++ '.' :: e))) } := by
  have hm := matchFilename_canonical p c d s e [] hp hpc hc hcc hd hs hsc hsu he (Or.inl rfl)
  rw [List.append_nil] at hm
  unfold parse_filename
  have hemp : ((p ++ '_' :: (c ++ '_' :: (d ++ '_' :: (s ++ '.' :: e)))) == []) = false := by
    rcases p with _ | ⟨p1, pr⟩
    · exact absurd rfl hp
    · rfl
  rw [hemp]
  simp only [Bool.false_eq_true, if_false]
  rw [hm]
  rcases hdn : dateNums d with ⟨y, m, dd⟩
  rw [hdn] at hv
  simp only [hdn]
  rw [if_pos hv]

theorem getLast?_cons_of_ne_nil {a : Char} {t : List Char} (h : t ≠ []) :
    (a :: t).getLast? = t.getLast? := by
  conv_lhs => rw [show a :: t = [a] ++ t from rfl]
  exact List.getLast?_append_of_ne_nil [a] h

theorem parse_bak_fails (u : List Char) (r : ParsedFilename)
    (h : parse_filename (u ++ ".fastq.bak".data) = .ok r) : False := by
  obtain ⟨z, hform, hz, -, -, -, -, -, -, -, hein⟩ := parse_ok_decomposition _ _ h
  have hez : (r.extension ++ z) ≠ [] := by
    intro hh
    simp only [extAlternatives, List.mem_cons, List.not_mem_nil, or_false] at hein
    rcases List.append_eq_nil.mp hh with ⟨he2, -⟩
    rcases hein with h4 | h4 | h4 | h4 <;> rw [h4] at he2 <;>
      simp [extFastq, extFq, extFastqGz, extFqGz] at he2
  have h1 : (u ++ ".fastq.bak".data).getLast? = some 'k' := by
    rw [List.getLast?_append_of_ne_nil u (by decide)]
    decide
  have h2 : (u ++ ".fastq.bak".data).getLast? = (r.extension ++ z).getLast? := by
    rw [hform]
    rw [List.getLast?_append_of_ne_nil _ (by simp)]
    rw [getLast?_cons_of_ne_nil (by simp)]
    rw [List.getLast?_append_of_ne_nil _ (by simp)]
    rw [getLast?_cons_of_ne_nil (by simp)]
    rw [List.getLast?_append_of_ne_nil _ (by simp)]
    rw [getLast?_cons_of_ne_nil (by simp)]
    rw [List.getLast?_append_of_ne_nil _ (by simp [hez])]
    rw [getLast?_cons_of_ne_nil hez]
  rw [h1] at h2
  simp only [extAlternatives, List.mem_cons, List.not_mem_nil, or_false] at hein
  rcases hz with rfl | rfl <;> rcases hein with h4 | h4 | h4 | h4 <;> rw [h4] at h2 <;>
    exact absurd h2 (by decide)

theorem parse_invalid_date_errors (p c d s e : List Char)
    (hp : p ≠ []) (hpc : ∀ ch ∈ p, isPartnerChar ch = true)
    (hc : c ≠ []) (hcc : ∀ ch ∈ c, isTokenChar ch = true)
    (hd : dateShapeB d = true)
    (hv : ¬ validCalendarDate (dateNums d).1 (dateNums d).2.1 (dateNums d).2.2)
    (hs : s ≠ []) (hsc : ∀ ch ∈ s, isTokenChar ch = true) (hsu : ('_' : Char) ∉ s)
    (he : e ∈ extAlternatives) :
    parse_filename (p ++ '_' :: (c ++ '_' :: (d ++ '_' :: (s ++ '.' :: e)))) =
      .error (.invalidDate (p ++ '_' :: (c ++ '_' :: (d ++ '_' :: (s ++ '.' :: e)))) d) := by
  have hm := matchFilename_canonical p c d s e [] hp hpc hc hcc hd hs hsc hsu he (Or.inl rfl)
  rw [List.append_nil] at hm
  unfold parse_filename
  have hemp : ((p ++ '_' :: (c ++ '_' :: (d ++ '_' :: (s ++ '.' :: e)))) == []) = false := by
    rcases p with _ | ⟨p1, pr⟩
    · exact absurd rfl hp
    · rfl
  rw [hemp]
  simp only [Bool.false_eq_true, if_false]
  rw [hm]
  rcases hdn : dateNums d with ⟨y, m, dd⟩
  rw [hdn] at hv
  simp only [hdn]
  rw [if_neg hv]

theorem processLines_eq_filterMap (ls : List (List Char)) (n : Nat) :
    processLines ls n = (ls.enumFrom (n + 1)).filterMap (fun p =>
      let stripped := pyStrip p.2
      if stripped ≠ [] ∧ p.1 % 4 = 2 ∧ seqLineOk stripped then
        some (stripped.map Char.toUpper)
      else none) := by
  induction ls generalizing n with
  | nil => rfl
  | cons l ls ih =>
    by_cases h1 : pyStrip l = [] <;>
      by_cases h2 : (n + 1) % 4 = 2 <;>
      by_cases h3 : seqLineOk (pyStrip l) = true <;>
      simp [processLines, List.enumFrom, h1, h2, h3, ih]

/-! ## Claims -/

/-- C1, counterexample: the round-trip claim fails as stated.  For the
grammar-legal tokens `partner_id = "A"`, `cage_id = "B"`, the real date
`2024-01-01`, `sample_id = "X_2025-02-02_Y"` and extension `fastq`, the
parse of the joined name succeeds but returns `cage_id =
"B_2024-01-01_X"` and date `2025-02-02`: the greedy cage group absorbs
the written date and anchors on the later date-shaped run inside the
sample token. -/
theorem c1_round_trip_counterexample :
    ("B".data ≠ [] ∧ ∀ ch ∈ "B".data, isTokenChar ch = true) ∧
    ("X_2025-02-02_Y".data ≠ [] ∧ ∀ ch ∈ "X_2025-02-02_Y".data, isTokenChar ch = true) ∧
    (dateShapeB "2024-01-01".data = true ∧ validCalendarDate 2024 1 1) ∧
    ((parse_filename ("A".data ++ '_' :: ("B".data ++ '_' :: ("2024-01-01".data ++ '_' ::
        ("X_2025-02-02_Y".data ++ '.' :: "fastq".data))))).toOption.map
      ParsedFilename.cage_id ≠ some "B".data) ∧
    ((parse_filename ("A".data ++ '_' :: ("B".data ++ '_' :: ("2024-01-01".data ++ '_' ::
        ("X_2025-02-02_Y".data ++ '.' :: "fastq".data))))).toOption.map
      ParsedFilename.cage_id = some "B_2024-01-01_X".data) := by
  decide

/-- C1, amended: for grammar-legal tokens and a real calendar date,
parsing the joined `{partner}_{cage}_{date}_{sample}.{ext}` name
succeeds and returns the five components unchanged, provided the
sample token contains no underscore (an underscore-bounded date-shaped
run inside the sample shifts the greedy date anchor, as the
counterexample shows; the other tokens are unrestricted). -/
theorem c1_round_trip_amended (p c d s e : List Char)
    (hp : p ≠ []) (hpc : ∀ ch ∈ p, isPartnerChar ch = true)
    (hc : c ≠ []) (hcc : ∀ ch ∈ c, isTokenChar ch = true)
    (hd : dateShapeB d = true)
    (hv : validCalendarDate (dateNums d).1 (dateNums d).2.1 (dateNums d).2.2)
    (hs : s ≠ []) (hsc : ∀ ch ∈ s, isTokenChar ch = true) (hsu : ('_' : Char) ∉ s)
    (he : e ∈ extAlternatives) :
    parse_filename (p ++ '_' :: (c ++ '_' :: (d ++ '_' :: (s ++ '.' :: e)))) =
      .ok { partner_id := p, cage_id := c, date := d, sample_id := s, extension := e,
            is_compressed := endsWithGz e, parsed_date := dateNums d,
            original_filename := p ++ '_' :: (c ++ '_' :: (d ++ '_' :: (s ++ '.' :: e))) } :=
  parse_filename_roundtrip p c d s e hp hpc hc hcc hd hv hs hsc hsu he

/-- Witness for the amended C1 at the specification example
`Mowi_CAGE-04B_2025-08-15_S01.fastq`. -/
theorem c1_round_trip_amended_witness :
    parse_filename ("Mowi".data ++ '_' :: ("CAGE-04B".data ++ '_' :: ("2025-08-15".data ++
        '_' :: ("S01".data ++ '.' :: "fastq".data)))) =
      .ok { partner_id := "Mowi".data, cage_id := "CAGE-04B".data, date := "2025-08-15".data,
            sample_id := "S01".data, extension := "fastq".data,
            is_compressed := endsWithGz "fastq".data,
            parsed_date := dateNums "2025-08-15".data,
            original_filename := "Mowi".data ++ '_' :: ("CAGE-04B".data ++ '_' ::
              ("2025-08-15".data ++ '_' :: ("S01".data ++ '.' :: "fastq".data))) } :=
  c1_round_trip_amended "Mowi".data "CAGE-04B".data "2025-08-15".data "S01".data "fastq".data
    (by decide) (by decide) (by decide) (by decide) (by decide) (by decide) (by decide)
    (by decide) (by decide) (by decide)

/-- C2: on a nonempty record list the risk score is the fixed weighted
sum `0.30*diversity + 0.25*gc + 0.35*motifs + 0.10*quality` of the four
factor functions, clamped to the unit interval, and on the empty list it
is `0.0` via the early return that precedes all factor computation. -/
theorem c2_weighted_sum :
    _analyze_srs_patterns [] = 0 ∧
    ∀ sequences : List (List Char), sequences ≠ [] →
      _analyze_srs_patterns sequences =
        max 0 (min 1
          (3 / 10 * _calculate_sequence_diversity sequences +
            1 / 4 * _calculate_gc_content_risk sequences +
            7 / 20 * _detect_pathogen_motifs sequences +
            1 / 10 * _calculate_quality_indicators sequences)) := by
  refine ⟨rfl, fun s hs => ?_⟩
  unfold _analyze_srs_patterns
  simp [hs]

/-- Witness for C2 on the one-record list `["ATGC"]`. -/
theorem c2_weighted_sum_witness :
    _analyze_srs_patterns ["ATGC".data] =
      max 0 (min 1
        (3 / 10 * _calculate_sequence_diversity ["ATGC".data] +
          1 / 4 * _calculate_gc_content_risk ["ATGC".data] +
          7 / 20 * _detect_pathogen_motifs ["ATGC".data] +
          1 / 10 * _calculate_quality_indicators ["ATGC".data])) :=
  c2_weighted_sum.2 ["ATGC".data] (by decide)

/-- C3: on the specification example the record reader returns exactly
`["ATGC", "GGCC"]` (the middle record is dropped for its invalid
alphabet), and in general the reader keeps a stripped nonempty line,
uppercased, exactly when its 1-based raw line number is 2 modulo 4 and
every character belongs case-insensitively to the IUPAC alphabet;
rejected candidates are silently dropped (the reader is total). -/
theorem c3_record_reader :
    readRecords ("@h1\nATGC\n+\nHHHH\n@h2\nXYZT\n+\nIIII\n@h3\nGGCC\n+\nJJJJ\n".data) =
      ["ATGC".data, "GGCC".data] ∧
    ∀ text : List Char, readRecords text = readRecordsSpec text := by
  constructor
  · decide
  · intro text
    unfold readRecords readRecordsSpec
    exact processLines_eq_filterMap (pyLines text) 0

/-- C4: the risk bands of `_categorize_risk_level` are inclusive on
their lower thresholds — `critical` iff `0.8 <= s`, `high` iff
`0.6 <= s < 0.8`, `medium` iff `0.4 <= s < 0.6`, `low` otherwise — and
the boundary examples evaluate as the spec states. -/
theorem c4_risk_level_bands :
    (∀ s : ℚ, (_categorize_risk_level s = "critical" ↔ 8 / 10 ≤ s) ∧
      (_categorize_risk_level s = "high" ↔ 6 / 10 ≤ s ∧ s < 8 / 10) ∧
      (_categorize_risk_level s = "medium" ↔ 4 / 10 ≤ s ∧ s < 6 / 10) ∧
      (_categorize_risk_level s = "low" ↔ s < 4 / 10)) ∧
    _categorize_risk_level (8 / 10) = "critical" ∧
    _categorize_risk_level (79999 / 100000) = "high" ∧
    _categorize_risk_level (6 / 10) = "high" ∧
    _categorize_risk_level (4 / 10) = "medium" ∧
    _categorize_risk_level (39999 / 100000) = "low" := by
  refine ⟨fun s => ?_, by norm_num [_categorize_risk_level],
    by norm_num [_categorize_risk_level], by norm_num [_categorize_risk_level],
    by norm_num [_categorize_risk_level], by norm_num [_categorize_risk_level]⟩
  unfold _categorize_risk_level
  split_ifs with h1 h2 h3 <;> refine ⟨?_, ?_, ?_, ?_⟩ <;> simp <;>
    first
    | linarith
    | constructor <;> linarith
    | rintro ⟨a, b⟩ <;> linarith
    | intro a <;> linarith

/-- C5: when metadata gathering succeeded but the record read or the
scoring raised, `analyze_file` does not re-raise: it returns a complete
record with a null score, `risk_level = "analysis_failed"`, the analysis
timestamp, and the wrapped error string. -/
theorem c5_analysis_failure_downgraded (filename : List Char) (size_bytes : Nat)
    (e : List Char) (timestamp : List Char) :
    (analyze_file filename size_bytes (.error e) timestamp).srs_risk_score = none ∧
    (analyze_file filename size_bytes (.error e) timestamp).risk_level =
      some "analysis_failed" ∧
    (analyze_file filename size_bytes (.error e) timestamp).risk_analysis_timestamp =
      some timestamp ∧
    (analyze_file filename size_bytes (.error e) timestamp).risk_analysis_error =
      some (srsErrorMessage filename e) := by
  unfold analyze_file calculate_srs_risk_score
  simp

/-- C6: when the filename fails to parse but the content reads and
scores, `analyze_file` returns null identifier fields, the populated
parse error, and a non-null risk score — parsing failure never prevents
scoring. -/
theorem c6_parse_failure_still_scored (filename : List Char) (size_bytes : Nat)
    (pe : FilenameParseErr) (hparse : parse_filename filename = .error pe)
    (seqs : List (List Char)) (timestamp : List Char) :
    (analyze_file filename size_bytes (.ok seqs) timestamp).partner_id = none ∧
    (analyze_file filename size_bytes (.ok seqs) timestamp).cage_id = none ∧
    (analyze_file filename size_bytes (.ok seqs) timestamp).sample_date = none ∧
    (analyze_file filename size_bytes (.ok seqs) timestamp).sample_id = none ∧
    (analyze_file filename size_bytes (.ok seqs) timestamp).parse_error = some pe ∧
    (analyze_file filename size_bytes (.ok seqs) timestamp).srs_risk_score =
      some (if seqs == [] then 0 else _analyze_srs_patterns seqs) := by
  unfold analyze_file get_file_info calculate_srs_risk_score
  rw [hparse]
  by_cases hseq : seqs = [] <;> simp [hseq]

/-- Witness for C6 on the unparsable name `badname.fastq` with readable
content. -/
theorem c6_parse_failure_still_scored_witness :
    (analyze_file "badname.fastq".data 10 (.ok [['A', 'T']]) "t".data).partner_id = none ∧
    (analyze_file "badname.fastq".data 10 (.ok [['A', 'T']]) "t".data).cage_id = none ∧
    (analyze_file "badname.fastq".data 10 (.ok [['A', 'T']]) "t".data).sample_date = none ∧
    (analyze_file "badname.fastq".data 10 (.ok [['A', 'T']]) "t".data).sample_id = none ∧
    (analyze_file "badname.fastq".data 10 (.ok [['A', 'T']]) "t".data).parse_error =
      some (.patternMismatch "badname.fastq".data) ∧
    (analyze_file "badname.fastq".data 10 (.ok [['A', 'T']]) "t".data).srs_risk_score =
      some (if ([['A', 'T']] : List (List Char)) == [] then 0
        else _analyze_srs_patterns [['A', 'T']]) :=
  c6_parse_failure_still_scored "badname.fastq".data 10
    (.patternMismatch "badname.fastq".data) (by decide) [['A', 'T']] "t".data

/-- C7, counterexample: the claim that no extra trailing character —
including a trailing newline — is ever accepted fails: the Python `$`
anchor also matches just before a final newline, so
`"A_B_2024-01-01_C.fastq\n"` parses successfully. -/
theorem c7_anchoring_counterexample :
    (parse_filename ("A_B_2024-01-01_C.fastq\n".data)).toOption.isSome = true := by
  decide

/-- C7, amended: parsing is anchored at both ends — every accepted
string decomposes exactly into the grammar form — except that the `$`
anchor additionally tolerates one final newline: the trailing residue
`z` is `[]` or `['\n']`, and nothing else.  No extra leading characters
are ever accepted. -/
theorem c7_anchoring_amended (l : List Char) (r : ParsedFilename)
    (h : parse_filename l = .ok r) :
    ∃ z, l = r.partner_id ++ '_' :: (r.cage_id ++ '_' :: (r.date ++ '_' ::
        (r.sample_id ++ '.' :: (r.extension ++ z)))) ∧ (z = [] ∨ z = ['\n']) := by
  obtain ⟨z, hform, hz, -⟩ := parse_ok_decomposition l r h
  exact ⟨z, hform, hz⟩

/-- Witness for the amended C7 at `A_B_2024-01-01_C.fastq`. -/
theorem c7_anchoring_amended_witness :
    ∃ z, "A_B_2024-01-01_C.fastq".data = "A".data ++ '_' :: ("B".data ++ '_' ::
        ("2024-01-01".data ++ '_' :: ("C".data ++ '.' :: ("fastq".data ++ z)))) ∧
      (z = [] ∨ z = ['\n']) :=
  c7_anchoring_amended "A_B_2024-01-01_C.fastq".data
    ⟨"A".data, "B".data, "2024-01-01".data, "C".data, "fastq".data, false, (2024, 1, 1),
      "A_B_2024-01-01_C.fastq".data⟩ (by decide)

/-- C8, counterexample: as stated the claim fails.  The canonical join
`P_C_2024-13-01_X_2024-01-01_S.fastq` puts the impossible date
`2024-13-01` (month 13, the claim example) in the date slot, yet
parsing succeeds, because the greedy cage group re-anchors on the later
valid date-shaped run inside the sample token. -/
theorem c8_reject_counterexample :
    dateShapeB "2024-13-01".data = true ∧
    ¬ validCalendarDate (dateNums "2024-13-01".data).1 (dateNums "2024-13-01".data).2.1
        (dateNums "2024-13-01".data).2.2 ∧
    (parse_filename ("P".data ++ '_' :: ("C".data ++ '_' :: ("2024-13-01".data ++ '_' ::
        ("X_2024-01-01_S".data ++ '.' :: "fastq".data))))).toOption.isSome = true := by
  decide

/-- C8, amended: parse rejects (with an error value, never a partial
result) the empty string; every three-part join of underscore-free
tokens, i.e. a name missing one of the four segments; every name ending
in `.fastq.bak`; and every canonical join whose date slot is structural
but not a real calendar date, provided no second underscore-bounded
date-shaped run follows it (sample token underscore-free — otherwise
the counterexample applies), the latter with an error naming the
invalid date. -/
theorem c8_reject_families_amended :
    parse_filename [] = .error .emptyFilename ∧
    (∀ t1 t2 t3 e : List Char, ('_' : Char) ∉ t1 → ('_' : Char) ∉ t2 →
      ('_' : Char) ∉ t3 → e ∈ extAlternatives →
      (parse_filename (t1 ++ '_' :: (t2 ++ '_' :: (t3 ++ '.' :: e)))).toOption = none) ∧
    (∀ u : List Char, (parse_filename (u ++ ".fastq.bak".data)).toOption = none) ∧
    (∀ p c d s e : List Char, p ≠ [] → (∀ ch ∈ p, isPartnerChar ch = true) →
      c ≠ [] → (∀ ch ∈ c, isTokenChar ch = true) → dateShapeB d = true →
      ¬ validCalendarDate (dateNums d).1 (dateNums d).2.1 (dateNums d).2.2 →
      s ≠ [] → (∀ ch ∈ s, isTokenChar ch = true) → ('_' : Char) ∉ s →
      e ∈ extAlternatives →
      parse_filename (p ++ '_' :: (c ++ '_' :: (d ++ '_' :: (s ++ '.' :: e)))) =
        .error (.invalidDate (p ++ '_' :: (c ++ '_' :: (d ++ '_' :: (s ++ '.' :: e)))) d)) := by
  refine ⟨rfl, ?_, ?_, ?_⟩
  · intro t1 t2 t3 e h1 h2 h3 he
    cases hres : parse_filename (t1 ++ '_' :: (t2 ++ '_' :: (t3 ++ '.' :: e))) with
    | error er => rfl
    | ok r =>
      exfalso
      have hcnt := parse_ok_underscore_count _ _ hres
      have hnu := extAlternatives_no_underscore e he
      have hc2 : (t1 ++ '_' :: (t2 ++ '_' :: (t3 ++ '.' :: e))).count '_' = 2 := by
        simp [List.count_append, List.count_cons, List.count_eq_zero.mpr h1,
          List.count_eq_zero.mpr h2, List.count_eq_zero.mpr h3,
          List.count_eq_zero.mpr hnu]
      rw [hc2] at hcnt
      omega
  · intro u
    cases hres : parse_filename (u ++ ".fastq.bak".data) with
    | error er => rfl
    | ok r => exact (parse_bak_fails u r hres).elim
  · intro p c d s e hp hpc hc hcc hd hv hs hsc hsu he
    exact parse_invalid_date_errors p c d s e hp hpc hc hcc hd hv hs hsc hsu he

/-- Witness for the amended C8: a missing-segment name, a `.fastq.bak`
name, and a canonical month-13 name all fail. -/
theorem c8_reject_families_amended_witness :
    (parse_filename ("A".data ++ '_' :: ("2024-01-01".data ++ '_' :: ("S".data ++ '.' ::
        "fastq".data)))).toOption = none ∧
    (parse_filename ("P_C_2024-01-01_S".data ++ ".fastq.bak".data)).toOption = none ∧
    parse_filename ("P".data ++ '_' :: ("C".data ++ '_' :: ("2024-13-01".data ++ '_' ::
        ("S".data ++ '.' :: "fastq".data)))) =
      .error (.invalidDate ("P".data ++ '_' :: ("C".data ++ '_' :: ("2024-13-01".data ++
        '_' :: ("S".data ++ '.' :: "fastq".data)))) "2024-13-01".data) :=
  ⟨c8_reject_families_amended.2.1 "A".data "2024-01-01".data "S".data "fastq".data
      (by decide) (by decide) (by decide) (by decide),
    c8_reject_families_amended.2.2.1 "P_C_2024-01-01_S".data,
    c8_reject_families_amended.2.2.2 "P".data "C".data "2024-13-01".data "S".data
      "fastq".data (by decide) (by decide) (by decide) (by decide) (by decide)
      (by decide) (by decide) (by decide) (by decide) (by decide)⟩

/-- C9: for every record list, including the empty one, the risk score
lies in the closed unit interval — the empty case returns zero and the
general case is clamped. -/
theorem c9_score_bounded (sequences : List (List Char)) :
    0 ≤ _analyze_srs_patterns sequences ∧ _analyze_srs_patterns sequences ≤ 1 := by
  unfold _analyze_srs_patterns
  split
  · norm_num
  · exact ⟨le_max_left 0 _, max_le (by norm_num) (min_le_left 1 _)⟩

/-- C10: on a list of at least 1000 records the risk score equals the
score of its first 1000 records: every factor samples a prefix of at
most 1000/500/200/100 records and the diversity denominator
`min(len, 1000)` saturates. -/
theorem c10_prefix_1000 (sequences : List (List Char)) (h : 1000 ≤ sequences.length) :
    _analyze_srs_patterns sequences = _analyze_srs_patterns (sequences.take 1000) := by
  have hne : sequences ≠ [] := by
    intro hh
    rw [hh] at h
    simp at h
  have hlen : (sequences.take 1000).length = 1000 := by
    simp [List.length_take]
    omega
  have htne : sequences.take 1000 ≠ [] := by
    intro hh
    rw [hh] at hlen
    simp at hlen
  have h2 : ¬ sequences.length < 2 := by omega
  have hdiv : _calculate_sequence_diversity (sequences.take 1000) =
      _calculate_sequence_diversity sequences := by
    unfold _calculate_sequence_diversity
    rw [List.take_take]
    simp [hlen, h2, Nat.min_eq_right h]
  have hgc : _calculate_gc_content_risk (sequences.take 1000) =
      _calculate_gc_content_risk sequences := by
    unfold _calculate_gc_content_risk
    simp [List.take_take]
  have hmot : _detect_pathogen_motifs (sequences.take 1000) =
      _detect_pathogen_motifs sequences := by
    unfold _detect_pathogen_motifs
    have h200 : (200 : Nat) ≤ sequences.length := by omega
    simp [hlen, List.take_take, Nat.min_eq_right h200]
  have hq : _calculate_quality_indicators (sequences.take 1000) =
      _calculate_quality_indicators sequences := by
    unfold _calculate_quality_indicators
    simp [List.take_take, hne, htne]
  unfold _analyze_srs_patterns
  simp [hne, htne, hdiv, hgc, hmot, hq]

/-- Witness for C10 on 1000 copies of the record `"A"`. -/
theorem c10_prefix_1000_witness :
    _analyze_srs_patterns (List.replicate 1000 ['A']) =
      _analyze_srs_patterns ((List.replicate 1000 ['A']).take 1000) :=
  c10_prefix_1000 (List.replicate 1000 ['A'])
    (by simp only [List.length_replicate, le_refl])
